import Mathlib

/-!
Verification of the reliable framed transport protocol and audio-container
repair layer of the WAV echo test server (`remote_dawn/echo_test_server.py`).

Bytes are modelled as natural numbers (`Nat`); a wire stream is a `List Nat`.
All definitions are shallow embeddings of the corresponding Python functions,
with the same names where possible.
-/

namespace EchoServer

/-! ### Protocol constants (echo_test_server.py, lines 229-238; the later
re-definition block is the one in effect, with `PACKET_MAX_SIZE = 8192`). -/

def PROTOCOL_VERSION : Nat := 0x01
def PACKET_HEADER_SIZE : Nat := 8
def PACKET_MAX_SIZE : Nat := 8192
def PACKET_TYPE_HANDSHAKE : Nat := 0x01
def PACKET_TYPE_DATA : Nat := 0x02
def PACKET_TYPE_DATA_END : Nat := 0x03
def PACKET_TYPE_ACK : Nat := 0x04
def PACKET_TYPE_NACK : Nat := 0x05
def PACKET_TYPE_RETRY : Nat := 0x06

/-! ### Stream reading

`read_exact(conn, n)` reads exactly `n` bytes or returns `None` when the
connection closes / times out before `n` bytes arrive.  On a modelled stream
this is: succeed iff at least `n` bytes remain, returning the `n` bytes taken
and the remaining stream. -/

def read_exact (n : Nat) (s : List Nat) : Option (List Nat × List Nat) :=
  if n ≤ s.length then some (s.take n, s.drop n) else none

theorem read_exact_append (A B : List Nat) : read_exact A.length (A ++ B) = some (A, B) := by
  simp [read_exact]

theorem read_exact_eq_some {n : Nat} {s t r : List Nat} (h : read_exact n s = some (t, r)) :
    t = s.take n ∧ r = s.drop n ∧ n ≤ s.length := by
  unfold read_exact at h
  split at h
  next hle =>
    simp only [Option.some.injEq, Prod.mk.injEq] at h
    exact ⟨h.1.symm, h.2.symm, hle⟩
  next => exact absurd h (by simp)

/-! ### Checksum (`calculate_checksum`, lines 98-110)

A Fletcher-16 style running pair-sum modulo 255 over the payload bytes,
combined as `(sum2 << 8) | sum1`.  The Python loop is a left fold over the
byte sequence with state `(sum1, sum2)`. -/

def calculate_checksum (data : List Nat) : Nat :=
  let p := data.foldl
    (fun (s : Nat × Nat) (byte : Nat) =>
      let sum1 := (s.1 + byte) % 255
      (sum1, (s.2 + sum1) % 255))
    (0, 0)
  (p.2 <<< 8) ||| p.1

/-- Modelled from the spec: the reference checksum fold of section 4.1 -
starting from `sum1 = 0`, `sum2 = 0`, for each byte `b` of the payload in
order `sum1 = (sum1 + b) mod 255` and `sum2 = (sum2 + sum1) mod 255`, with
result `(sum2 << 8) | sum1`, written as explicit structural recursion. -/
def checksum_spec_fold : List Nat → Nat → Nat → Nat × Nat
  | [], s1, s2 => (s1, s2)
  | b :: rest, s1, s2 => checksum_spec_fold rest ((s1 + b) % 255) ((s2 + (s1 + b) % 255) % 255)

def checksum_spec (p : List Nat) : Nat :=
  let r := checksum_spec_fold p 0 0
  (r.2 <<< 8) ||| r.1

theorem foldl_eq_checksum_spec_fold (p : List Nat) (s1 s2 : Nat) :
    p.foldl
      (fun (s : Nat × Nat) (byte : Nat) =>
        let sum1 := (s.1 + byte) % 255
        (sum1, (s.2 + sum1) % 255))
      (s1, s2) = checksum_spec_fold p s1 s2 := by
  induction p generalizing s1 s2 with
  | nil => rfl
  | cons b rest ih =>
    rw [List.foldl_cons, checksum_spec_fold]
    exact ih ((s1 + b) % 255) ((s2 + (s1 + b) % 255) % 255)

theorem checksum_spec_fold_lt (p : List Nat) (s1 s2 : Nat)
    (h1 : s1 < 255) (h2 : s2 < 255) :
    (checksum_spec_fold p s1 s2).1 < 255 ∧ (checksum_spec_fold p s1 s2).2 < 255 := by
  induction p generalizing s1 s2 with
  | nil => exact ⟨h1, h2⟩
  | cons b rest ih => exact ih _ _ (Nat.mod_lt _ (by omega)) (Nat.mod_lt _ (by omega))

theorem lor_shift_eq (s1 s2 : Nat) (h1 : s1 < 256) :
    (s2 <<< 8) ||| s1 = 256 * s2 + s1 := by
  rw [Nat.shiftLeft_eq, Nat.mul_comm s2 (2 ^ 8)]
  exact (Nat.mul_add_lt_is_or (by exact h1) s2).symm

theorem calculate_checksum_eq_mul (p : List Nat) :
    calculate_checksum p =
      256 * (checksum_spec_fold p 0 0).2 + (checksum_spec_fold p 0 0).1 := by
  have hb := checksum_spec_fold_lt p 0 0 (by omega) (by omega)
  unfold calculate_checksum
  rw [foldl_eq_checksum_spec_fold]
  exact lor_shift_eq _ _ (by omega)

theorem calculate_checksum_lt (p : List Nat) : calculate_checksum p < 65536 := by
  have hb := checksum_spec_fold_lt p 0 0 (by omega) (by omega)
  rw [calculate_checksum_eq_mul]
  omega

/-! ### Packet header codec (`build_packet_header` / `parse_packet_header`,
lines 112-136)

Header wire layout (big-endian): `length(4) | version(1) | type(1) |
checksum(2)`, produced by `struct.pack(">IBBH", ...)`. -/

def build_packet_header (data_length packet_type checksum : Nat) : List Nat :=
  [data_length / 2 ^ 24 % 256, data_length / 2 ^ 16 % 256,
   data_length / 2 ^ 8 % 256, data_length % 256,
   PROTOCOL_VERSION, packet_type,
   checksum / 2 ^ 8 % 256, checksum % 256]

structure PacketHeader where
  length : Nat
  version : Nat
  type : Nat
  checksum : Nat
deriving Repr, DecidableEq

def parse_packet_header (header : List Nat) : Option PacketHeader :=
  match header with
  | [b0, b1, b2, b3, v, t, c0, c1] =>
    if v ≠ PROTOCOL_VERSION then none
    else some ⟨((b0 * 256 + b1) * 256 + b2) * 256 + b3, v, t, c0 * 256 + c1⟩
  | _ => none

theorem build_packet_header_length (l t c : Nat) : (build_packet_header l t c).length = 8 := rfl

theorem parse_build_packet_header (l t c : Nat) (hl : l < 2 ^ 32) (hc : c < 2 ^ 16) :
    parse_packet_header (build_packet_header l t c) =
      some ⟨l, PROTOCOL_VERSION, t, c⟩ := by
  simp only [build_packet_header, parse_packet_header, PROTOCOL_VERSION,
    if_neg (by omega : ¬(1 : Nat) ≠ 1), Option.some.injEq, PacketHeader.mk.injEq]
  refine ⟨by omega, trivial, trivial, by omega⟩

theorem read_exact_header (l t c : Nat) (B : List Nat) :
    read_exact PACKET_HEADER_SIZE (build_packet_header l t c ++ B) =
      some (build_packet_header l t c, B) :=
  read_exact_append (build_packet_header l t c) B

/-- 2-byte big-endian sequence number encoding, `struct.pack(">H", seq)`. -/
def pack_u16 (n : Nat) : List Nat := [n / 2 ^ 8 % 256, n % 256]

theorem pack_u16_length (n : Nat) : (pack_u16 n).length = 2 := rfl

theorem read_exact_u16 (n : Nat) (B : List Nat) :
    read_exact 2 (pack_u16 n ++ B) = some (pack_u16 n, B) :=
  read_exact_append (pack_u16 n) B

/-- Decoding of the 2-byte sequence number, `struct.unpack(">H", seq_bytes)`. -/
def unpack_u16 (b : List Nat) : Nat := b.getD 0 0 * 256 + b.getD 1 0

theorem unpack_pack_u16 (n : Nat) (hn : n < 2 ^ 16) : unpack_u16 (pack_u16 n) = n := by
  simp only [unpack_u16, pack_u16, List.getD]
  simp
  omega

/-! ### Handshake (`handle_handshake`, lines 159-222)

Reads an 8-byte header, requires protocol version and type `Handshake`,
reads the declared number of payload bytes, verifies the checksum and the
4-byte magic `A5 5A B2 2B`, registers the client's sequence counters at
`(send := 0, receive := 0)`, and sends a zero-length Ack.  The model passes
the Ack transmission outcome in as `ackOk` (the Python code returns `False`
when `send_ack` fails; note the sequence counters are registered *before*
the Ack is sent).  Result: `(success flag, registered session if any)`. -/

def expected_magic : List Nat := [0xA5, 0x5A, 0xB2, 0x2B]

def handle_handshake (stream : List Nat) (ackOk : Bool) : Bool × Option (Nat × Nat) :=
  match read_exact PACKET_HEADER_SIZE stream with
  | none => (false, none)
  | some (header_data, r1) =>
    match parse_packet_header header_data with
    | none => (false, none)
    | some info =>
      if info.type ≠ PACKET_TYPE_HANDSHAKE then (false, none)
      else
        match read_exact info.length r1 with
        | none => (false, none)
        | some (handshake_data, _r2) =>
          if handshake_data = [] then (false, none)
          else if calculate_checksum handshake_data ≠ info.checksum then (false, none)
          else if handshake_data ≠ expected_magic then (false, none)
          else if ackOk then (true, some (0, 0)) else (false, some (0, 0))

/-- The unique 12-byte wire prefix accepted by the handshake: a header with
length 4, the fixed protocol version, type Handshake and the checksum of the
magic, followed by the 4 magic bytes. -/
def good_handshake_bytes : List Nat :=
  build_packet_header 4 PACKET_TYPE_HANDSHAKE (calculate_checksum expected_magic) ++
    expected_magic

theorem take_add_split {α : Type} (m n : Nat) :
    ∀ l : List α, l.take (m + n) = l.take m ++ (l.drop m).take n := by
  induction m with
  | zero => intro l; simp
  | succ k ih =>
    intro l
    cases l with
    | nil => simp
    | cons a t =>
      have h1 : k + 1 + n = (k + n) + 1 := by omega
      rw [h1, List.take_succ_cons, List.take_succ_cons, List.drop_succ_cons, ih t,
        List.cons_append]

theorem read_exact_magic (B : List Nat) :
    read_exact 4 (expected_magic ++ B) = some (expected_magic, B) :=
  read_exact_append expected_magic B

theorem handshake_of_good (stream rest : List Nat) (ackOk : Bool)
    (hs : stream = good_handshake_bytes ++ rest) :
    handle_handshake stream ackOk = (ackOk, some (0, 0)) := by
  subst hs
  have hp : parse_packet_header
      (build_packet_header 4 PACKET_TYPE_HANDSHAKE (calculate_checksum expected_magic)) =
      some ⟨4, PROTOCOL_VERSION, PACKET_TYPE_HANDSHAKE, calculate_checksum expected_magic⟩ :=
    parse_build_packet_header _ _ _ (by omega) (calculate_checksum_lt _)
  unfold handle_handshake good_handshake_bytes
  rw [List.append_assoc, read_exact_header]
  simp only [hp, read_exact_magic]
  norm_num [expected_magic]
  cases ackOk <;> simp

theorem parse_eq_some_build {hd : List Nat} {info : PacketHeader}
    (hb : ∀ b ∈ hd, b < 256)
    (h : parse_packet_header hd = some info) :
    hd = build_packet_header info.length info.type info.checksum ∧
      info.length < 2 ^ 32 ∧ info.checksum < 2 ^ 16 ∧ info.version = PROTOCOL_VERSION := by
  unfold parse_packet_header at h
  split at h
  · rename_i b0 b1 b2 b3 v t c0 c1
    split at h
    · exact absurd h (by simp)
    rename_i hv
    simp only [ne_eq, not_not] at hv
    simp only [Option.some.injEq] at h
    subst h
    subst hv
    have hb0 := hb b0 (by simp)
    have hb1 := hb b1 (by simp)
    have hb2 := hb b2 (by simp)
    have hb3 := hb b3 (by simp)
    have hc0 := hb c0 (by simp)
    have hc1 := hb c1 (by simp)
    refine ⟨?_, by show ((b0 * 256 + b1) * 256 + b2) * 256 + b3 < 2 ^ 32; omega,
      by show c0 * 256 + c1 < 2 ^ 16; omega, rfl⟩
    simp only [build_packet_header]
    simp only [List.cons.injEq, and_true, true_and]
    omega
  · exact absurd h (by simp)

theorem handshake_success_shape (stream : List Nat) (ackOk : Bool)
    (hbytes : ∀ b ∈ stream, b < 256)
    (h : (handle_handshake stream ackOk).1 = true) :
    stream.take 12 = good_handshake_bytes ∧ ackOk = true := by
  unfold handle_handshake at h
  split at h
  · simp at h
  rename_i header_data r1 h8
  obtain ⟨hhd, hr1, hlen8⟩ := read_exact_eq_some h8
  simp only [PACKET_HEADER_SIZE] at hhd hr1 hlen8
  split at h
  · simp at h
  rename_i info hparse
  split at h
  · simp at h
  rename_i htype
  simp only [ne_eq, not_not] at htype
  split at h
  · simp at h
  rename_i handshake_data r2 hread2
  obtain ⟨hhsd, -, hlen2⟩ := read_exact_eq_some hread2
  split at h
  · simp at h
  rename_i hne
  split at h
  · simp at h
  rename_i hchk
  simp only [ne_eq, not_not] at hchk
  split at h
  · simp at h
  rename_i hmagic
  simp only [ne_eq, not_not] at hmagic
  have hackOk : ackOk = true := by
    by_contra hx
    rw [if_neg (by simpa using hx)] at h
    simp at h
  -- the payload read length must be 4 since the payload equals the 4-byte magic
  have hlen4 : info.length = 4 := by
    have hl : handshake_data.length = 4 := by rw [hmagic]; rfl
    rw [hhsd, List.length_take] at hl
    omega
  have hbhd : ∀ b ∈ header_data, b < 256 := by
    intro b hb
    refine hbytes b (List.take_subset 8 stream ?_)
    rw [← hhd]; exact hb
  obtain ⟨hhdeq, -, -, -⟩ := parse_eq_some_build hbhd hparse
  refine ⟨?_, hackOk⟩
  have htake12 : stream.take 12 = stream.take 8 ++ (stream.drop 8).take 4 := by
    rw [show (12 : Nat) = 8 + 4 from rfl, take_add_split]
  have h2 : (stream.drop 8).take 4 = handshake_data := by
    rw [hhsd, hr1, hlen4]
  rw [htake12, h2, ← hhd, hhdeq, hlen4, htype, ← hchk, hmagic]
  rfl

/-! ### Receiver (`receive_data_with_verification`, lines 240-329)

One loop iteration reads a header, validates the declared length against
`PACKET_MAX_SIZE` and the cumulative `max_size`, reads the 2-byte sequence
number, compares it with the session's `receive_sequence`, reads the payload,
verifies the checksum, and on success Acks, appends the payload and
increments `receive_sequence`; a `DATA_END` frame ends the loop.  The Ack /
Nack responses are modelled as always transmitted successfully and recorded
in `sent`.  Note the Python falsy test `if not chunk_data` treats an empty
payload read exactly like a failed read (Nack, abort). -/

inductive Response
  | ack
  | nack
deriving DecidableEq, Repr

structure RecvState where
  stream : List Nat
  recvSeq : Nat
  received : List Nat
  sent : List Response
deriving DecidableEq, Repr

inductive RecvStep
  | abort (s : RecvState)
  | again (s : RecvState)
  | done (s : RecvState)
  | more (s : RecvState)
deriving DecidableEq, Repr

def RecvStep.state : RecvStep → RecvState
  | .abort s => s
  | .again s => s
  | .done s => s
  | .more s => s

def receiveIter (maxSize : Nat) (st : RecvState) : RecvStep :=
  match read_exact PACKET_HEADER_SIZE st.stream with
  | none => .abort st
  | some (header_data, r1) =>
    match parse_packet_header header_data with
    | none => .abort { st with stream := r1, sent := st.sent ++ [.nack] }
    | some info =>
      if info.length > PACKET_MAX_SIZE then
        .abort { st with stream := r1, sent := st.sent ++ [.nack] }
      else if st.received.length + info.length > maxSize then
        .abort { st with stream := r1, sent := st.sent ++ [.nack] }
      else
        match read_exact 2 r1 with
        | none => .abort { st with stream := r1, sent := st.sent ++ [.nack] }
        | some (seq_bytes, r2) =>
          if unpack_u16 seq_bytes ≠ st.recvSeq then
            .again { st with stream := r2, sent := st.sent ++ [.nack] }
          else
            match read_exact info.length r2 with
            | none => .abort { st with stream := r2, sent := st.sent ++ [.nack] }
            | some (chunk_data, r3) =>
              if chunk_data = [] then
                .abort { st with stream := r3, sent := st.sent ++ [.nack] }
              else if calculate_checksum chunk_data ≠ info.checksum then
                .again { st with stream := r3, sent := st.sent ++ [.nack] }
              else
                let st1 : RecvState :=
                  { stream := r3, recvSeq := st.recvSeq + 1,
                    received := st.received ++ chunk_data,
                    sent := st.sent ++ [.ack] }
                if info.type = PACKET_TYPE_DATA_END then .done st1 else .more st1

theorem receiveIter_again_lt {maxSize : Nat} {st s : RecvState}
    (h : receiveIter maxSize st = RecvStep.again s) :
    s.stream.length < st.stream.length := by
  unfold receiveIter at h
  split at h
  · simp at h
  rename_i header_data r1 h8
  obtain ⟨-, hr1, hlen1⟩ := read_exact_eq_some h8
  split at h
  · simp at h
  rename_i info hparse
  split at h
  · simp at h
  split at h
  · simp at h
  split at h
  · simp at h
  rename_i seq_bytes r2 hseq
  obtain ⟨-, hr2, hlen2⟩ := read_exact_eq_some hseq
  split at h
  · simp only [RecvStep.again.injEq] at h
    subst h
    subst hr2
    subst hr1
    simp only [List.length_drop, PACKET_HEADER_SIZE] at hlen1 hlen2 ⊢
    omega
  split at h
  · simp at h
  rename_i chunk_data r3 hchunk
  obtain ⟨-, hr3, hlen3⟩ := read_exact_eq_some hchunk
  split at h
  · simp at h
  split at h
  · simp only [RecvStep.again.injEq] at h
    subst h
    subst hr3
    subst hr2
    subst hr1
    simp only [List.length_drop, PACKET_HEADER_SIZE] at hlen1 hlen2 hlen3 ⊢
    omega
  split at h <;> simp at h

theorem receiveIter_more_lt {maxSize : Nat} {st s : RecvState}
    (h : receiveIter maxSize st = RecvStep.more s) :
    s.stream.length < st.stream.length := by
  unfold receiveIter at h
  split at h
  · simp at h
  rename_i header_data r1 h8
  obtain ⟨-, hr1, hlen1⟩ := read_exact_eq_some h8
  split at h
  · simp at h
  rename_i info hparse
  split at h
  · simp at h
  split at h
  · simp at h
  split at h
  · simp at h
  rename_i seq_bytes r2 hseq
  obtain ⟨-, hr2, hlen2⟩ := read_exact_eq_some hseq
  split at h
  · simp at h
  split at h
  · simp at h
  rename_i chunk_data r3 hchunk
  obtain ⟨-, hr3, hlen3⟩ := read_exact_eq_some hchunk
  split at h
  · simp at h
  split at h
  · simp at h
  split at h
  · simp at h
  simp only [RecvStep.more.injEq] at h
  subst h
  subst hr3
  subst hr2
  subst hr1
  simp only [List.length_drop, PACKET_HEADER_SIZE] at hlen1 hlen2 hlen3 ⊢
  omega

def receiveLoop (maxSize : Nat) (st : RecvState) : Option (List Nat) × RecvState :=
  match hiter : receiveIter maxSize st with
  | .abort s => (none, s)
  | .done s => (some s.received, s)
  | .again s => receiveLoop maxSize s
  | .more s => receiveLoop maxSize s
termination_by st.stream.length
decreasing_by
  · exact receiveIter_again_lt hiter
  · exact receiveIter_more_lt hiter

/-- Top-level model of `receive_data_with_verification`: run the loop on a
fresh accumulation buffer from the session's current `receive_sequence`. -/
def receive_data_with_verification (stream : List Nat) (recvSeq : Nat)
    (maxSize : Nat := 10 * 1024 * 1024) : Option (List Nat) × RecvState :=
  receiveLoop maxSize { stream := stream, recvSeq := recvSeq, received := [], sent := [] }

theorem receiveLoop_abort {maxSize : Nat} {st s : RecvState}
    (h : receiveIter maxSize st = RecvStep.abort s) :
    receiveLoop maxSize st = (none, s) := by
  rw [receiveLoop.eq_def]
  split <;> rename_i s2 h2 <;> rw [h] at h2 <;>
    first
      | (injection h2 with h3; subst h3; rfl)
      | simp at h2

theorem receiveLoop_done {maxSize : Nat} {st s : RecvState}
    (h : receiveIter maxSize st = RecvStep.done s) :
    receiveLoop maxSize st = (some s.received, s) := by
  rw [receiveLoop.eq_def]
  split <;> rename_i s2 h2 <;> rw [h] at h2 <;>
    first
      | (injection h2 with h3; subst h3; rfl)
      | simp at h2

theorem receiveLoop_again {maxSize : Nat} {st s : RecvState}
    (h : receiveIter maxSize st = RecvStep.again s) :
    receiveLoop maxSize st = receiveLoop maxSize s := by
  rw [receiveLoop.eq_def]
  split <;> rename_i s2 h2 <;> rw [h] at h2 <;>
    first
      | (injection h2 with h3; subst h3; rfl)
      | simp at h2

theorem receiveIter_oversize (maxSize len t chk : Nat) (rest : List Nat) (st : RecvState)
    (hstream : st.stream = build_packet_header len t chk ++ rest)
    (hlen : len < 2 ^ 32) (hchk : chk < 2 ^ 16)
    (hover : len > PACKET_MAX_SIZE ∨ st.received.length + len > maxSize) :
    receiveIter maxSize st =
      RecvStep.abort { st with stream := rest, sent := st.sent ++ [Response.nack] } := by
  unfold receiveIter
  rw [hstream, read_exact_header]
  have e2 := parse_build_packet_header len t chk hlen hchk
  simp only [e2]
  by_cases h1 : len > PACKET_MAX_SIZE
  · rw [if_pos h1]
  · rw [if_neg h1, if_pos (by omega : st.received.length + len > maxSize)]

theorem receiveIter_frame (maxSize len t chk q : Nat) (P R : List Nat) (st : RecvState)
    (hstream : st.stream = build_packet_header len t chk ++ (pack_u16 q ++ (P ++ R)))
    (hP : P.length = len) (hlen : len < 2 ^ 32) (hchk : chk < 2 ^ 16) (hq : q < 2 ^ 16)
    (hsize1 : len ≤ PACKET_MAX_SIZE) (hsize2 : st.received.length + len ≤ maxSize) :
    receiveIter maxSize st =
      if q ≠ st.recvSeq then
        RecvStep.again { st with stream := P ++ R, sent := st.sent ++ [Response.nack] }
      else if P = [] then
        RecvStep.abort { st with stream := R, sent := st.sent ++ [Response.nack] }
      else if calculate_checksum P ≠ chk then
        RecvStep.again { st with stream := R, sent := st.sent ++ [Response.nack] }
      else if t = PACKET_TYPE_DATA_END then
        RecvStep.done { stream := R, recvSeq := st.recvSeq + 1,
                        received := st.received ++ P, sent := st.sent ++ [Response.ack] }
      else
        RecvStep.more { stream := R, recvSeq := st.recvSeq + 1,
                        received := st.received ++ P, sent := st.sent ++ [Response.ack] } := by
  unfold receiveIter
  rw [hstream, read_exact_header]
  have e2 := parse_build_packet_header len t chk hlen hchk
  have e3 : read_exact 2 (pack_u16 q ++ (P ++ R)) = some (pack_u16 q, P ++ R) :=
    read_exact_u16 q (P ++ R)
  have e4 := unpack_pack_u16 q hq
  have e5 : read_exact len (P ++ R) = some (P, R) := by
    rw [← hP]; exact read_exact_append P R
  simp only [e2, e3, e4, e5, if_neg (by omega : ¬ len > PACKET_MAX_SIZE),
    if_neg (by omega : ¬ st.received.length + len > maxSize)]

theorem receiveLoop_more {maxSize : Nat} {st s : RecvState}
    (h : receiveIter maxSize st = RecvStep.more s) :
    receiveLoop maxSize st = receiveLoop maxSize s := by
  rw [receiveLoop.eq_def]
  split <;> rename_i s2 h2 <;> rw [h] at h2 <;>
    first
      | (injection h2 with h3; subst h3; rfl)
      | simp at h2

/-! ### Sender (`send_data_with_retries`, lines 331-432)

The payload is cut into chunks of at most `PACKET_MAX_SIZE` bytes.  Each
chunk is framed as header + 2-byte sequence number + payload and attempted
up to `max_retries` times (`for retry in range(max_retries)`).  A retry with
`retry > 0` first sleeps `min(0.1 * 2 ** retry, 2.0)` seconds; delays are
modelled in tenths of a second, so the delay is `min (2 ^ retry) 20`.  The
environment's reaction to each attempt is an `AttemptOutcome`, mirroring the
code paths: an exception while writing or waiting (`sendExn`), no/short ack
header (`readFail`), an unparseable ack header (`badHeader`), or a parsed
response of some type (`response t`); only type Ack ends the retry loop
successfully.  Transmissions and sleeps are recorded as `SendEvent`s. -/

inductive AttemptOutcome
  | sendExn
  | readFail
  | badHeader
  | response (t : Nat)
deriving DecidableEq, Repr

inductive SendEvent
  | sleep (tenths : Nat)
  | transmit (header seq_bytes chunk : List Nat)
  | transmitFailed (header seq_bytes chunk : List Nat)
deriving DecidableEq, Repr

/-- Backoff before attempt `retry`, in tenths of a second:
`min(0.1 * 2 ** retry, 2.0)` seconds. -/
def retry_delay (retry : Nat) : Nat := min (2 ^ retry) 20

def chunkRetryLoop (env : Nat → AttemptOutcome) (header seq_bytes chunk : List Nat) :
    Nat → Nat → Bool × List SendEvent
  | _retry, 0 => (false, [])
  | retry, remaining + 1 =>
    let pre : List SendEvent := if 0 < retry then [SendEvent.sleep (retry_delay retry)] else []
    match env retry with
    | .sendExn =>
      let r := chunkRetryLoop env header seq_bytes chunk (retry + 1) remaining
      (r.1, pre ++ [SendEvent.transmitFailed header seq_bytes chunk] ++ r.2)
    | .readFail =>
      let r := chunkRetryLoop env header seq_bytes chunk (retry + 1) remaining
      (r.1, pre ++ [SendEvent.transmit header seq_bytes chunk] ++ r.2)
    | .badHeader =>
      let r := chunkRetryLoop env header seq_bytes chunk (retry + 1) remaining
      (r.1, pre ++ [SendEvent.transmit header seq_bytes chunk] ++ r.2)
    | .response t =>
      if t = PACKET_TYPE_ACK then (true, pre ++ [SendEvent.transmit header seq_bytes chunk])
      else
        let r := chunkRetryLoop env header seq_bytes chunk (retry + 1) remaining
        (r.1, pre ++ [SendEvent.transmit header seq_bytes chunk] ++ r.2)

def sendLoop (env : Nat → Nat → AttemptOutcome) (maxRetries : Nat) :
    List Nat → Nat → Nat → Bool × Nat × List SendEvent
  | [], send_sequence, _chunkIdx => (true, send_sequence, [])
  | a :: d, send_sequence, chunkIdx =>
    let chunk := (a :: d).take PACKET_MAX_SIZE
    let is_last_chunk := (a :: d).length ≤ PACKET_MAX_SIZE
    let packet_type := if is_last_chunk then PACKET_TYPE_DATA_END else PACKET_TYPE_DATA
    let checksum := calculate_checksum chunk
    let header := build_packet_header chunk.length packet_type checksum
    let sequence_bytes := pack_u16 send_sequence
    let r := chunkRetryLoop (env chunkIdx) header sequence_bytes chunk 0 maxRetries
    if r.1 then
      let rest := sendLoop env maxRetries ((a :: d).drop PACKET_MAX_SIZE) (send_sequence + 1)
        (chunkIdx + 1)
      (rest.1, rest.2.1, r.2 ++ rest.2.2)
    else (false, send_sequence, r.2)
termination_by data _ _ => data.length
decreasing_by
  simp only [List.length_drop, List.length_cons, PACKET_MAX_SIZE]
  omega

/-- Top-level model of `send_data_with_retries`: result flag, final
`send_sequence` and the trace of wire events. -/
def send_data_with_retries (env : Nat → Nat → AttemptOutcome) (data : List Nat)
    (send_sequence : Nat) (max_retries : Nat := 5) : Bool × Nat × List SendEvent :=
  sendLoop env max_retries data send_sequence 0

/-- The chunk decomposition performed by the send loop: for each chunk in
order, its frame type (`DataEnd` for the final chunk, `Data` otherwise), its
sequence number, and its bytes. -/
def framesOf : List Nat → Nat → List (Nat × Nat × List Nat)
  | [], _ => []
  | a :: d, s =>
    (if (a :: d).length ≤ PACKET_MAX_SIZE then PACKET_TYPE_DATA_END else PACKET_TYPE_DATA, s,
      (a :: d).take PACKET_MAX_SIZE) :: framesOf ((a :: d).drop PACKET_MAX_SIZE) (s + 1)
termination_by data _ => data.length
decreasing_by
  simp only [List.length_drop, List.length_cons, PACKET_MAX_SIZE]
  omega

def chunkCount : List Nat → Nat
  | [] => 0
  | a :: d => 1 + chunkCount ((a :: d).drop PACKET_MAX_SIZE)
termination_by data => data.length
decreasing_by
  simp only [List.length_drop, List.length_cons, PACKET_MAX_SIZE]
  omega

/-- The wire frame for one sender chunk. -/
def frameEvent : Nat × Nat × List Nat → SendEvent
  | (t, s, c) =>
    SendEvent.transmit (build_packet_header c.length t (calculate_checksum c)) (pack_u16 s) c

/-- Bytes a given event contributes to the wire (a completed transmission
delivers header, sequence and payload; sleeps and failed writes deliver
nothing on a lossless link). -/
def SendEvent.wireBytes : SendEvent → List Nat
  | .transmit h q c => h ++ q ++ c
  | .transmitFailed _ _ _ => []
  | .sleep _ => []

def traceBytes (tr : List SendEvent) : List Nat := (tr.map SendEvent.wireBytes).flatten

/-- A lossless link: every attempt of every chunk is answered with Ack. -/
def losslessEnv : Nat → Nat → AttemptOutcome := fun _ _ => AttemptOutcome.response PACKET_TYPE_ACK

def SendEvent.isTransmit : SendEvent → Bool
  | .transmit _ _ _ => true
  | _ => false

def SendEvent.isSleep : SendEvent → Bool
  | .sleep _ => true
  | _ => false

/-- The event trace of a retry loop in which no attempt is ever answered
with an Ack: attempts at `retry, retry+1, ...`, each but a first attempt
preceded by its backoff sleep. -/
def allFailTrace (header seq_bytes chunk : List Nat) : Nat → Nat → List SendEvent
  | _retry, 0 => []
  | retry, remaining + 1 =>
    (if 0 < retry then [SendEvent.sleep (retry_delay retry)] else []) ++
      SendEvent.transmit header seq_bytes chunk ::
        allFailTrace header seq_bytes chunk (retry + 1) remaining

theorem chunkRetryLoop_all_fail (env : Nat → AttemptOutcome) (h q c : List Nat) :
    ∀ remaining retry,
      (∀ i, retry ≤ i → i < retry + remaining →
        env i = AttemptOutcome.readFail ∨ env i = AttemptOutcome.badHeader ∨
          env i = AttemptOutcome.response PACKET_TYPE_NACK) →
      chunkRetryLoop env h q c retry remaining = (false, allFailTrace h q c retry remaining) := by
  intro remaining
  induction remaining with
  | zero => intro retry _; rfl
  | succ n ih =>
    intro retry hall
    have h0 := hall retry (Nat.le_refl _) (by omega)
    have hrec := ih (retry + 1) (fun i h1 h2 => hall i (by omega) (by omega))
    rcases h0 with h0 | h0 | h0 <;>
      simp [chunkRetryLoop, allFailTrace, h0, hrec, PACKET_TYPE_NACK, PACKET_TYPE_ACK]

theorem allFailTrace_filter_transmit (h q c : List Nat) : ∀ remaining retry,
    (allFailTrace h q c retry remaining).filter SendEvent.isTransmit =
      List.replicate remaining (SendEvent.transmit h q c) := by
  intro remaining
  induction remaining with
  | zero => intro retry; rfl
  | succ n ih =>
    intro retry
    by_cases h0 : 0 < retry <;>
      simp [allFailTrace, h0, SendEvent.isTransmit, SendEvent.isSleep,
        List.replicate_succ, ih]

theorem allFailTrace_filter_sleep_pos (h q c : List Nat) : ∀ remaining retry, 1 ≤ retry →
    (allFailTrace h q c retry remaining).filter SendEvent.isSleep =
      (List.range' retry remaining).map (fun i => SendEvent.sleep (retry_delay i)) := by
  intro remaining
  induction remaining with
  | zero => intro retry _; rfl
  | succ n ih =>
    intro retry h1
    rw [List.range'_succ]
    simp [allFailTrace, (by omega : 0 < retry), SendEvent.isSleep, SendEvent.isTransmit,
      ih (retry + 1) (by omega)]

theorem allFailTrace_filter_sleep_zero (h q c : List Nat) (m : Nat) :
    (allFailTrace h q c 0 (m + 1)).filter SendEvent.isSleep =
      (List.range' 1 m).map (fun i => SendEvent.sleep (retry_delay i)) := by
  have hm : (allFailTrace h q c 0 (m + 1)) =
      SendEvent.transmit h q c :: allFailTrace h q c 1 m := by
    simp [allFailTrace]
  rw [hm]
  cases m with
  | zero => rfl
  | succ k =>
    simp only [List.filter_cons]
    simp [SendEvent.isSleep, allFailTrace_filter_sleep_pos h q c (k + 1) 1 (Nat.le_refl _)]

theorem retry_delay_le_cap (r : Nat) : retry_delay r ≤ 20 := Nat.min_le_right _ _

theorem retry_delay_increasing (r : Nat) :
    retry_delay r < retry_delay (r + 1) ∨ retry_delay (r + 1) = 20 := by
  by_cases h : r ≤ 3
  · left
    interval_cases r <;> decide
  · right
    have h32 : 2 ^ 5 ≤ 2 ^ (r + 1) := Nat.pow_le_pow_right (by omega) (by omega)
    unfold retry_delay
    omega

theorem sendLoop_nil (env : Nat → Nat → AttemptOutcome) (mr s k : Nat) :
    sendLoop env mr [] s k = (true, s, []) := by
  rw [sendLoop.eq_def]

theorem chunkRetryLoop_ack_first (env : Nat → AttemptOutcome) (h q c : List Nat)
    (retry remaining : Nat) (hrem : 0 < remaining)
    (hack : env retry = AttemptOutcome.response PACKET_TYPE_ACK) :
    chunkRetryLoop env h q c retry remaining =
      (true, (if 0 < retry then [SendEvent.sleep (retry_delay retry)] else []) ++
        [SendEvent.transmit h q c]) := by
  obtain ⟨m, rfl⟩ := Nat.exists_eq_succ_of_ne_zero (by omega : remaining ≠ 0)
  simp [chunkRetryLoop, hack, PACKET_TYPE_ACK]

theorem sendLoop_lossless : ∀ n data s k, data.length ≤ n →
    sendLoop losslessEnv 5 data s k =
      (true, s + chunkCount data, (framesOf data s).map frameEvent) := by
  intro n
  induction n with
  | zero =>
    intro data s k hn
    have hd : data = [] := List.eq_nil_of_length_eq_zero (by omega)
    subst hd
    simp [sendLoop_nil, chunkCount, framesOf]
  | succ n ih =>
    intro data s k hn
    cases data with
    | nil => simp [sendLoop_nil, chunkCount, framesOf]
    | cons a d =>
      rw [sendLoop.eq_def]
      dsimp only
      rw [chunkRetryLoop_ack_first (losslessEnv k) _ _ _ 0 5 (by omega) rfl]
      have hdrop : ((a :: d).drop PACKET_MAX_SIZE).length ≤ n := by
        simp only [List.length_drop, List.length_cons, PACKET_MAX_SIZE] at hn ⊢
        omega
      rw [ih ((a :: d).drop PACKET_MAX_SIZE) (s + 1) (k + 1) hdrop]
      simp only [framesOf, chunkCount, frameEvent, List.map_cons, if_pos rfl]
      simp only [if_true, List.singleton_append, Prod.mk.injEq, true_and, and_true]
      refine ⟨by omega, by norm_num⟩

theorem chunkCount_pos {data : List Nat} (h : data ≠ []) : 1 ≤ chunkCount data := by
  obtain ⟨a, d, rfl⟩ := List.exists_cons_of_ne_nil h
  simp [chunkCount]

theorem take_max_ne_nil (a : Nat) (d : List Nat) : (a :: d).take PACKET_MAX_SIZE ≠ [] := by
  rw [show PACKET_MAX_SIZE = 8191 + 1 from rfl, List.take_succ_cons]
  simp

/-- On a lossless link, feeding the sender's frame stream to the receive loop
reconstructs the accumulated buffer byte for byte. -/
theorem receiveLoop_frames (maxSize : Nat) : ∀ n data acc s sentAcc, data.length ≤ n →
    data ≠ [] → acc.length + data.length ≤ maxSize → s + chunkCount data ≤ 65536 →
    (receiveLoop maxSize
      { stream := traceBytes ((framesOf data s).map frameEvent),
        recvSeq := s, received := acc, sent := sentAcc }).1 = some (acc ++ data) := by
  intro n
  induction n with
  | zero =>
    intro data acc s sentAcc h1 h2 _ _
    exact absurd (List.eq_nil_of_length_eq_zero (by omega)) h2
  | succ n ih =>
    intro data acc s sentAcc h1 h2 h3 h4
    obtain ⟨a, d, rfl⟩ := List.exists_cons_of_ne_nil h2
    have hcc : chunkCount (a :: d) = 1 + chunkCount ((a :: d).drop PACKET_MAX_SIZE) := by
      rw [chunkCount]
    have hclen : ((a :: d).take PACKET_MAX_SIZE).length ≤ PACKET_MAX_SIZE := by
      simp [List.length_take]
    have hclen2 : ((a :: d).take PACKET_MAX_SIZE).length ≤ (a :: d).length := by
      simp [List.length_take]
    have hstream : traceBytes ((framesOf (a :: d) s).map frameEvent) =
        build_packet_header ((a :: d).take PACKET_MAX_SIZE).length
          (if (a :: d).length ≤ PACKET_MAX_SIZE then PACKET_TYPE_DATA_END else PACKET_TYPE_DATA)
          (calculate_checksum ((a :: d).take PACKET_MAX_SIZE)) ++
        (pack_u16 s ++ ((a :: d).take PACKET_MAX_SIZE ++
          traceBytes ((framesOf ((a :: d).drop PACKET_MAX_SIZE) (s + 1)).map frameEvent))) := by
      rw [framesOf]
      simp [traceBytes, frameEvent, SendEvent.wireBytes, List.append_assoc]
    have hmax : PACKET_MAX_SIZE = 8192 := rfl
    have hccpos : 1 ≤ chunkCount (a :: d) := chunkCount_pos (by simp)
    have hiter := receiveIter_frame maxSize ((a :: d).take PACKET_MAX_SIZE).length
      (if (a :: d).length ≤ PACKET_MAX_SIZE then PACKET_TYPE_DATA_END else PACKET_TYPE_DATA)
      (calculate_checksum ((a :: d).take PACKET_MAX_SIZE)) s
      ((a :: d).take PACKET_MAX_SIZE)
      (traceBytes ((framesOf ((a :: d).drop PACKET_MAX_SIZE) (s + 1)).map frameEvent))
      { stream := traceBytes ((framesOf (a :: d) s).map frameEvent),
        recvSeq := s, received := acc, sent := sentAcc }
      hstream rfl (by omega) (calculate_checksum_lt _) (by omega) hclen
      (show acc.length + ((a :: d).take PACKET_MAX_SIZE).length ≤ maxSize by omega)
    dsimp only at hiter
    rw [if_neg (show ¬ s ≠ s by simp), if_neg (take_max_ne_nil a d),
      if_neg (show ¬ calculate_checksum ((a :: d).take PACKET_MAX_SIZE) ≠
        calculate_checksum ((a :: d).take PACKET_MAX_SIZE) by simp)] at hiter
    by_cases hlast : (a :: d).length ≤ PACKET_MAX_SIZE
    · rw [if_pos hlast, if_pos rfl] at hiter
      rw [receiveLoop_done hiter]
      rw [List.take_of_length_le hlast]
    · rw [if_neg hlast,
        if_neg (show ¬ PACKET_TYPE_DATA = PACKET_TYPE_DATA_END by decide)] at hiter
      rw [receiveLoop_more hiter]
      have hh1 : ((a :: d).drop PACKET_MAX_SIZE).length ≤ n := by
        simp only [List.length_drop, List.length_cons] at h1 ⊢
        omega
      have hh2 : (a :: d).drop PACKET_MAX_SIZE ≠ [] := by
        refine List.length_pos.mp ?_
        simp only [List.length_drop, List.length_cons]
        simp only [List.length_cons] at hlast
        omega
      have hh3 : (acc ++ (a :: d).take PACKET_MAX_SIZE).length +
          ((a :: d).drop PACKET_MAX_SIZE).length ≤ maxSize := by
        simp only [List.length_append, List.length_take, List.length_drop]
        simp only [List.length_cons] at h3 hlast ⊢
        omega
      have hh4 : (s + 1) + chunkCount ((a :: d).drop PACKET_MAX_SIZE) ≤ 65536 := by
        rw [hcc] at h4
        omega
      have hrec := ih ((a :: d).drop PACKET_MAX_SIZE)
        (acc ++ (a :: d).take PACKET_MAX_SIZE) (s + 1) (sentAcc ++ [Response.ack])
        hh1 hh2 hh3 hh4
      rw [hrec, List.append_assoc, List.take_append_drop]

/-! ### WAV container validation and repair (`verify_wav_format`,
`ensure_valid_wav_format`, `create_wav_from_pcm`, `repair_wav_file`,
lines 523-658)

A WAV byte buffer is a `List Nat`.  `bslice w a b` is the Python slice
`w[a:b]`.  All multi-byte header fields are little-endian. -/

def RIFF_BYTES : List Nat := [0x52, 0x49, 0x46, 0x46]
def WAVE_BYTES : List Nat := [0x57, 0x41, 0x56, 0x45]
def FMT_BYTES : List Nat := [0x66, 0x6D, 0x74, 0x20]
def DATA_BYTES : List Nat := [0x64, 0x61, 0x74, 0x61]

def bslice (w : List Nat) (a b : Nat) : List Nat := (w.drop a).take (b - a)

def verify_wav_format (wav_bytes : List Nat) : Bool :=
  if wav_bytes.length < 44 then false
  else if bslice wav_bytes 0 4 ≠ RIFF_BYTES then false
  else if bslice wav_bytes 8 12 ≠ WAVE_BYTES then false
  else if bslice wav_bytes 12 16 ≠ FMT_BYTES then false
  else if bslice wav_bytes 36 40 ≠ DATA_BYTES then false
  else true

/-- `struct.pack("<I", n)`. -/
def pack_u32_le (n : Nat) : List Nat :=
  [n % 256, n / 2 ^ 8 % 256, n / 2 ^ 16 % 256, n / 2 ^ 24 % 256]

/-- `struct.pack("<H", n)`. -/
def pack_u16_le (n : Nat) : List Nat := [n % 256, n / 2 ^ 8 % 256]

def unpack_u32_le (b : List Nat) : Nat :=
  b.getD 0 0 + 256 * b.getD 1 0 + 65536 * b.getD 2 0 + 16777216 * b.getD 3 0

def unpack_u16_le (b : List Nat) : Nat := b.getD 0 0 + 256 * b.getD 1 0

theorem unpack_pack_u32_le (n : Nat) (hn : n < 2 ^ 32) :
    unpack_u32_le (pack_u32_le n) = n := by
  simp only [unpack_u32_le, pack_u32_le, List.getD]
  simp
  omega

theorem unpack_pack_u16_le (n : Nat) (hn : n < 2 ^ 16) :
    unpack_u16_le (pack_u16_le n) = n := by
  simp only [unpack_u16_le, pack_u16_le, List.getD]
  simp
  omega

/-- `create_wav_from_pcm` writes the PCM bytes through Python's stdlib
`wave` writer: a 44-byte canonical header (RIFF size `36 + len`, fmt chunk
size 16, format tag 1, the given channel count, rate, derived byte rate and
block alignment, bit depth `8 * sample_width`, data chunk size patched to
the number of bytes actually written) followed by the data bytes. -/
def create_wav_from_pcm (pcm_data : List Nat) (sample_rate : Nat := 16000)
    (channels : Nat := 1) (sample_width : Nat := 2) : List Nat :=
  RIFF_BYTES ++ pack_u32_le (36 + pcm_data.length) ++ WAVE_BYTES ++
  FMT_BYTES ++ pack_u32_le 16 ++ pack_u16_le 1 ++ pack_u16_le channels ++
  pack_u32_le sample_rate ++ pack_u32_le (channels * sample_rate * sample_width) ++
  pack_u16_le (channels * sample_width) ++ pack_u16_le (sample_width * 8) ++
  DATA_BYTES ++ pack_u32_le pcm_data.length ++ pcm_data

/-- `repair_wav_file`: for buffers shorter than 44 bytes, fall back to the
PCM wrapper (with its default parameters); otherwise copy the buffer and
overwrite bytes 0..43 in place - markers, RIFF size `len - 8`, fmt size 16,
PCM tag, mono, 16000 Hz, byte rate 32000, block align 2, 16 bits, data size
`len - 44` - leaving bytes from offset 44 unchanged.  The twelve slice
assignments of the Python code cover offsets 0..43 exactly, so the result is
the rebuilt 44-byte header followed by `corrupted_wav[44:]`. -/
def repair_wav_file (corrupted_wav : List Nat) : List Nat :=
  if corrupted_wav.length < 44 then create_wav_from_pcm corrupted_wav
  else
    RIFF_BYTES ++ pack_u32_le (corrupted_wav.length - 8) ++ WAVE_BYTES ++ FMT_BYTES ++
    pack_u32_le 16 ++ pack_u16_le 1 ++ pack_u16_le 1 ++ pack_u32_le 16000 ++
    pack_u32_le 32000 ++ pack_u16_le 2 ++ pack_u16_le 16 ++ DATA_BYTES ++
    pack_u32_le (corrupted_wav.length - 44) ++ corrupted_wav.drop 44

/-- `ensure_valid_wav_format`: return the input unchanged when it is at
least 44 bytes and carries both the RIFF and WAVE markers; otherwise
classify as raw PCM (no marker present, or fewer than 12 bytes) and wrap,
or as a corrupted container and repair. -/
def ensure_valid_wav_format (audio_data : List Nat) : List Nat :=
  if 44 ≤ audio_data.length ∧ bslice audio_data 0 4 = RIFF_BYTES ∧
      bslice audio_data 8 12 = WAVE_BYTES then
    audio_data
  else
    let is_likely_pcm : Bool :=
      if 12 ≤ audio_data.length ∧
          (bslice audio_data 0 4 = RIFF_BYTES ∨ bslice audio_data 8 12 = WAVE_BYTES) then
        false
      else true
    if is_likely_pcm then create_wav_from_pcm audio_data 16000 1 2
    else repair_wav_file audio_data

/-- All header fields of the canonical 44-byte-header layout shared by
`create_wav_from_pcm` and the repair branch of `repair_wav_file`. -/
theorem std_header_fields (sz1 fmtsz tag ch sr br ba bps sz2 : Nat) (tail : List Nat)
    (H : List Nat)
    (hH : H = RIFF_BYTES ++ pack_u32_le sz1 ++ WAVE_BYTES ++ FMT_BYTES ++
      pack_u32_le fmtsz ++ pack_u16_le tag ++ pack_u16_le ch ++ pack_u32_le sr ++
      pack_u32_le br ++ pack_u16_le ba ++ pack_u16_le bps ++ DATA_BYTES ++
      pack_u32_le sz2 ++ tail) :
    bslice H 0 4 = RIFF_BYTES ∧ bslice H 4 8 = pack_u32_le sz1 ∧
    bslice H 8 12 = WAVE_BYTES ∧ bslice H 12 16 = FMT_BYTES ∧
    bslice H 16 20 = pack_u32_le fmtsz ∧ bslice H 20 22 = pack_u16_le tag ∧
    bslice H 22 24 = pack_u16_le ch ∧ bslice H 24 28 = pack_u32_le sr ∧
    bslice H 28 32 = pack_u32_le br ∧ bslice H 32 34 = pack_u16_le ba ∧
    bslice H 34 36 = pack_u16_le bps ∧ bslice H 36 40 = DATA_BYTES ∧
    bslice H 40 44 = pack_u32_le sz2 ∧ H.drop 44 = tail ∧
    H.length = 44 + tail.length := by
  subst hH
  simp [bslice, RIFF_BYTES, WAVE_BYTES, FMT_BYTES, DATA_BYTES, pack_u32_le, pack_u16_le]
  omega

/-! ### Session table and connection handler (`client_sequences`,
`handle_connection_improved`, lines 57-58 and 807-903)

`client_sequences` is a dict from `"ip:port"` strings to
`{"send": _, "receive": _}` pairs, modelled as an association list.  The
connection handler runs handshake, receive, reply selection and send, and in
a `finally` block always deletes the client's entry (if present) and closes
the socket, whatever the exit path was.  The stages that can raise (socket
option setting, file persistence, transcription, reply construction) are
folded into the `exnAt` oracle, which aborts the body after the given stage;
the reply-selection pipeline (echo / stock file / silent fallback plus
container validation) is abstracted as the oracle `replyFor`. -/

abbrev SessionTable := List (String × (Nat × Nat))

def tableLookup (t : SessionTable) (key : String) : Option (Nat × Nat) :=
  (t.find? (fun p => p.1 == key)).map Prod.snd

def tableErase (t : SessionTable) (key : String) : SessionTable :=
  t.filter (fun p => p.1 != key)

def tableInsert (t : SessionTable) (key : String) (v : Nat × Nat) : SessionTable :=
  (key, v) :: tableErase t key

structure ConnEnv where
  hsStream : List Nat
  hsAckOk : Bool
  dataStream : List Nat
  sendEnv : Nat → Nat → AttemptOutcome
  replyFor : List Nat → List Nat
  exnAt : Option Nat

def handle_connection_improved (env : ConnEnv) (table : SessionTable)
    (client_ip : String) : SessionTable × Bool :=
  let bodyTable :=
    if env.exnAt = some 0 then table
    else
      let hs := handle_handshake env.hsStream env.hsAckOk
      let t1 := match hs.2 with
        | some session => tableInsert table client_ip session
        | none => table
      if hs.1 = false then t1
      else if env.exnAt = some 1 then t1
      else
        let session0 := (tableLookup t1 client_ip).getD (0, 0)
        let r := receiveLoop (10 * 1024 * 1024)
          { stream := env.dataStream, recvSeq := session0.2, received := [], sent := [] }
        let t2 := tableInsert t1 client_ip (session0.1, r.2.recvSeq)
        match r.1 with
        | none => t2
        | some received_data =>
          if env.exnAt = some 2 then t2
          else
            let reply := env.replyFor received_data
            let snd := sendLoop env.sendEnv 5 reply
              ((tableLookup t2 client_ip).getD (0, 0)).1 0
            tableInsert t2 client_ip (snd.2.1, r.2.recvSeq)
  (tableErase bodyTable client_ip, true)

theorem tableLookup_erase (t : SessionTable) (key : String) :
    tableLookup (tableErase t key) key = none := by
  induction t with
  | nil => rfl
  | cons p rest ih =>
    by_cases h : p.1 = key
    · simpa [tableErase, List.filter_cons, h] using ih
    · simp only [tableErase, List.filter_cons] at ih ⊢
      rw [if_pos (by simp [bne_iff_ne, h])]
      simp only [tableLookup, List.find?] at ih ⊢
      rw [show (p.1 == key) = false from by simp [h]]
      exact ih

/-! ## Claim theorems -/

/-- C1: for every byte sequence `p`, `calculate_checksum` equals the
reference fold of the spec (starting from `sum1 = 0`, `sum2 = 0`, for each
byte `b` in order `sum1 = (sum1 + b) mod 255`, `sum2 = (sum2 + sum1) mod
255`, result `(sum2 << 8) | sum1`); the checksum of the empty payload is 0
and the checksum of `[0x01]` is `0x0101`. -/
theorem C1_checksum_matches_reference_fold :
    (∀ p : List Nat, calculate_checksum p = checksum_spec p) ∧
    calculate_checksum [] = 0 ∧ calculate_checksum [0x01] = 0x0101 := by
  refine ⟨?_, by decide, by decide⟩
  intro p
  unfold calculate_checksum checksum_spec
  rw [foldl_eq_checksum_spec_fold]

/-- C6: a frame whose declared length exceeds `PACKET_MAX_SIZE`, or whose
length added to the accumulated total exceeds `max_size`, is rejected after
only the 8 header bytes are consumed - the sequence and payload bytes
(`rest`) are left unread - with a Nack sent, the transfer aborted returning
failure (`none`), and nothing appended to the accumulation buffer. -/
theorem C6_oversize_rejected_before_payload (maxSize len t chk : Nat) (rest : List Nat)
    (st : RecvState)
    (hstream : st.stream = build_packet_header len t chk ++ rest)
    (hlen : len < 2 ^ 32) (hchk : chk < 2 ^ 16)
    (hover : len > PACKET_MAX_SIZE ∨ st.received.length + len > maxSize) :
    receiveLoop maxSize st =
      (none, { st with stream := rest, sent := st.sent ++ [Response.nack] }) :=
  receiveLoop_abort (receiveIter_oversize maxSize len t chk rest st hstream hlen hchk hover)

/-- C6 witness: a 9000-byte declaration (over the 8192-byte frame cap) with
the sequence and payload bytes `[0, 0, 1]` still unconsumed. -/
theorem C6_oversize_rejected_before_payload_witness :
    receiveLoop 100
      { stream := build_packet_header 9000 PACKET_TYPE_DATA 0 ++ [0, 0, 1],
        recvSeq := 0, received := [], sent := [] } =
      (none, { stream := [0, 0, 1], recvSeq := 0, received := [],
               sent := [Response.nack] }) := by
  have h := C6_oversize_rejected_before_payload 100 9000 PACKET_TYPE_DATA 0 [0, 0, 1]
    { stream := build_packet_header 9000 PACKET_TYPE_DATA 0 ++ [0, 0, 1],
      recvSeq := 0, received := [], sent := [] }
    rfl (by decide) (by decide) (Or.inl (by decide))
  simpa using h

/-- C9: whatever the exit path of the connection handler (handshake
failure, receive failure, send failure, success, or an exception at any
stage, all covered by the `ConnEnv` oracle), when the handler returns the
session table has no entry for the connection's client identity and the
socket has been closed; a session created at handshake never outlives its
connection. -/
theorem C9_session_released_and_socket_closed (env : ConnEnv) (table : SessionTable)
    (client_ip : String) :
    tableLookup (handle_connection_improved env table client_ip).1 client_ip = none ∧
    (handle_connection_improved env table client_ip).2 = true :=
  ⟨tableLookup_erase _ _, rfl⟩

/-- C10: for the empty payload the sender's chunk loop runs zero times: the
transfer succeeds immediately, the session's `send_sequence` is unchanged
and the event trace is empty - no Data frame and no DataEnd frame is
written. -/
theorem C10_empty_payload_sends_nothing (env : Nat → Nat → AttemptOutcome)
    (send_sequence max_retries : Nat) :
    send_data_with_retries env [] send_sequence max_retries =
      (true, send_sequence, []) := by
  unfold send_data_with_retries
  exact sendLoop_nil env max_retries send_sequence 0

/-- C2: for one receiver-loop iteration on a complete incoming frame
(header declaring `len` with version byte, type `t`, checksum field `chk`;
then a 2-byte sequence number `q`; then `len` payload bytes `P`): if the
sequence differs from the expected `receive_sequence`, or the checksum over
the payload differs from the header field, or the declared length exceeds
`PACKET_MAX_SIZE`, then a Nack is sent and neither `receive_sequence` nor
the accumulation buffer changes; `receive_sequence` is incremented (by
exactly one) precisely for an accepted frame - the one answered with Ack
and whose payload is appended - and on no other path. -/
theorem C2_receiver_nack_and_exact_advance (maxSize len t chk q : Nat) (P R : List Nat)
    (st : RecvState)
    (hstream : st.stream = build_packet_header len t chk ++ (pack_u16 q ++ (P ++ R)))
    (hP : P.length = len) (hlen : len < 2 ^ 32) (hchk : chk < 2 ^ 16) (hq : q < 2 ^ 16) :
    ((len > PACKET_MAX_SIZE ∨ q ≠ st.recvSeq ∨ calculate_checksum P ≠ chk) →
      ((receiveIter maxSize st).state.sent = st.sent ++ [Response.nack] ∧
        (receiveIter maxSize st).state.recvSeq = st.recvSeq ∧
        (receiveIter maxSize st).state.received = st.received)) ∧
    ((receiveIter maxSize st).state.recvSeq = st.recvSeq + 1 ↔
      (len ≤ PACKET_MAX_SIZE ∧ st.received.length + len ≤ maxSize ∧ q = st.recvSeq ∧
        P ≠ [] ∧ calculate_checksum P = chk)) ∧
    ((receiveIter maxSize st).state.recvSeq = st.recvSeq + 1 →
      ((receiveIter maxSize st).state.sent = st.sent ++ [Response.ack] ∧
        (receiveIter maxSize st).state.received = st.received ++ P)) ∧
    ((receiveIter maxSize st).state.recvSeq = st.recvSeq ∨
      (receiveIter maxSize st).state.recvSeq = st.recvSeq + 1) := by
  by_cases hover : len > PACKET_MAX_SIZE ∨ st.received.length + len > maxSize
  · rw [receiveIter_oversize maxSize len t chk (pack_u16 q ++ (P ++ R)) st hstream hlen
      hchk hover]
    simp only [RecvStep.state]
    refine ⟨fun _ => ⟨trivial, trivial, trivial⟩, ?_, fun hx => absurd hx (by omega), Or.inl trivial⟩
    constructor
    · intro hx; exact absurd hx (by omega)
    · intro hx; omega
  · push_neg at hover
    rw [receiveIter_frame maxSize len t chk q P R st hstream hP hlen hchk hq
      (by omega) (by omega)]
    by_cases h1 : q ≠ st.recvSeq
    · rw [if_pos h1]
      simp only [RecvStep.state]
      refine ⟨fun _ => ⟨trivial, trivial, trivial⟩, ?_, fun hx => absurd hx (by omega), Or.inl trivial⟩
      constructor
      · intro hx; exact absurd hx (by omega)
      · intro hx; exact absurd hx.2.2.1 (by tauto)
    · rw [if_neg h1]
      push_neg at h1
      by_cases h2 : P = []
      · rw [if_pos h2]
        simp only [RecvStep.state]
        refine ⟨fun _ => ⟨trivial, trivial, trivial⟩, ?_, fun hx => absurd hx (by omega), Or.inl trivial⟩
        constructor
        · intro hx; exact absurd hx (by omega)
        · intro hx; exact absurd h2 hx.2.2.2.1
      · rw [if_neg h2]
        by_cases h3 : calculate_checksum P ≠ chk
        · rw [if_pos h3]
          simp only [RecvStep.state]
          refine ⟨fun _ => ⟨trivial, trivial, trivial⟩, ?_, fun hx => absurd hx (by omega), Or.inl trivial⟩
          constructor
          · intro hx; exact absurd hx (by omega)
          · intro hx; exact absurd hx.2.2.2.2 h3
        · rw [if_neg h3]
          push_neg at h3
          have hpre : ¬(len > PACKET_MAX_SIZE ∨ q ≠ st.recvSeq ∨
              calculate_checksum P ≠ chk) := by
            push_neg
            exact ⟨by omega, h1, h3⟩
          by_cases h4 : t = PACKET_TYPE_DATA_END
          · rw [if_pos h4]
            simp only [RecvStep.state]
            exact ⟨fun hx => absurd hx hpre,
              ⟨fun _ => ⟨by omega, by omega, h1, h2, h3⟩, fun _ => trivial⟩,
              fun _ => ⟨trivial, trivial⟩, Or.inr trivial⟩
          · rw [if_neg h4]
            simp only [RecvStep.state]
            exact ⟨fun hx => absurd hx hpre,
              ⟨fun _ => ⟨by omega, by omega, h1, h2, h3⟩, fun _ => trivial⟩,
              fun _ => ⟨trivial, trivial⟩, Or.inr trivial⟩

/-- C2 witness: a well-formed 1-byte frame `[7]` with matching sequence 0
and checksum is accepted and advances `receive_sequence` to 1. -/
theorem C2_receiver_nack_and_exact_advance_witness :
    (receiveIter 100
      { stream := build_packet_header 1 PACKET_TYPE_DATA_END 1799 ++
          (pack_u16 0 ++ ([7] ++ [])),
        recvSeq := 0, received := [], sent := [] }).state.recvSeq = 0 + 1 :=
  (C2_receiver_nack_and_exact_advance 100 1 PACKET_TYPE_DATA_END 1799 0 [7] []
    { stream := build_packet_header 1 PACKET_TYPE_DATA_END 1799 ++
        (pack_u16 0 ++ ([7] ++ [])),
      recvSeq := 0, received := [], sent := [] }
    rfl (by decide) (by decide) (by decide) (by decide)).2.1.mpr
    ⟨by decide, by decide, rfl, by decide, by decide⟩

/-- C3: for any chunk position the send loop reaches, if every wait for an
acknowledgment ends in a timeout or short read (`readFail`), a malformed
response header (`badHeader`) or a Nack, then the retry loop makes exactly
`max_retries` transmission attempts, each resending the identical header,
sequence number and chunk bytes; every re-attempt (attempt 1 and later) is
preceded by the backoff sleep `retry_delay`, which is strictly increasing
until it reaches the fixed 2-second cap (20 tenths); and the chunk loop
then aborts the whole transfer, reporting failure to the caller with the
`send_sequence` for this chunk unconsumed (no partial success). -/
theorem C3_sender_retry_exhaustion (env : Nat → Nat → AttemptOutcome)
    (k max_retries a s : Nat) (d : List Nat)
    (hfail : ∀ i, i < max_retries →
      env k i = AttemptOutcome.readFail ∨ env k i = AttemptOutcome.badHeader ∨
        env k i = AttemptOutcome.response PACKET_TYPE_NACK) :
    let chunk := (a :: d).take PACKET_MAX_SIZE
    let header := build_packet_header chunk.length
      (if (a :: d).length ≤ PACKET_MAX_SIZE then PACKET_TYPE_DATA_END else PACKET_TYPE_DATA)
      (calculate_checksum chunk)
    let r := chunkRetryLoop (env k) header (pack_u16 s) chunk 0 max_retries
    r.1 = false ∧
    r.2.filter SendEvent.isTransmit =
      List.replicate max_retries (SendEvent.transmit header (pack_u16 s) chunk) ∧
    r.2.filter SendEvent.isSleep =
      (List.range' 1 (max_retries - 1)).map (fun i => SendEvent.sleep (retry_delay i)) ∧
    (∀ j : Nat, retry_delay j ≤ 20 ∧
      (retry_delay j < retry_delay (j + 1) ∨ retry_delay (j + 1) = 20)) ∧
    sendLoop env max_retries (a :: d) s k = (false, s, r.2) := by
  intro chunk header r
  have hloop := chunkRetryLoop_all_fail (env k) header (pack_u16 s) chunk max_retries 0
    (fun i _ hi2 => hfail i (by omega))
  have hr : r = (false, allFailTrace header (pack_u16 s) chunk 0 max_retries) := hloop
  refine ⟨?_, ?_, ?_, fun j => ⟨retry_delay_le_cap j, retry_delay_increasing j⟩, ?_⟩
  · rw [hr]
  · rw [hr]
    exact allFailTrace_filter_transmit header (pack_u16 s) chunk max_retries 0
  · rw [hr]
    cases max_retries with
    | zero => rfl
    | succ m =>
      simpa using allFailTrace_filter_sleep_zero header (pack_u16 s) chunk m
  · rw [sendLoop.eq_def]
    dsimp only
    rw [show chunkRetryLoop (env k) header (pack_u16 s) chunk 0 max_retries =
        (false, allFailTrace header (pack_u16 s) chunk 0 max_retries) from hloop]
    rw [hr]
    simp

/-- C3 witness: a 1-byte payload whose every acknowledgment wait times out
is abandoned after the retry budget and the whole transfer fails. -/
theorem C3_sender_retry_exhaustion_witness :
    (sendLoop (fun _ _ => AttemptOutcome.readFail) 5 [1] 0 0).1 = false := by
  have h := C3_sender_retry_exhaustion (fun _ _ => AttemptOutcome.readFail) 0 5 1 0 []
    (fun i _ => Or.inl rfl)
  rw [h.2.2.2.2]

/-- C4: over a stream of bytes (values < 256), the handshake succeeds if
and only if the stream starts with the unique accepted 12-byte prefix - a
fully read 8-byte header with the fixed protocol version, type Handshake,
declared length 4 and the checksum of the magic, followed by exactly the
magic bytes `A5 5A B2 2B` - and the zero-length Ack is successfully sent.
On success the session is registered with both sequence counters 0.  A
stream shorter than 12 bytes (a short read at any step) fails it, and
altering any single magic byte (under any 16-bit checksum field) fails
it. -/
theorem C4_handshake_iff_magic (stream : List Nat) (ackOk : Bool)
    (hbytes : ∀ b ∈ stream, b < 256) :
    ((handle_handshake stream ackOk).1 = true ↔
      stream.take 12 = good_handshake_bytes ∧ ackOk = true) ∧
    ((handle_handshake stream ackOk).1 = true →
      (handle_handshake stream ackOk).2 = some (0, 0)) ∧
    (stream.length < 12 → (handle_handshake stream ackOk).1 = false) ∧
    (∀ (i b chk : Nat) (r2 : List Nat), i < 4 → b ≠ expected_magic.getD i 0 →
      chk < 2 ^ 16 →
      (handle_handshake (build_packet_header 4 PACKET_TYPE_HANDSHAKE chk ++
        (expected_magic.set i b ++ r2)) ackOk).1 = false) := by
  have hgood12 : good_handshake_bytes.length = 12 := rfl
  have hiff : (handle_handshake stream ackOk).1 = true ↔
      stream.take 12 = good_handshake_bytes ∧ ackOk = true := by
    constructor
    · exact handshake_success_shape stream ackOk hbytes
    · rintro ⟨h12, hack⟩
      have hs : stream = good_handshake_bytes ++ stream.drop 12 := by
        conv_lhs => rw [← List.take_append_drop 12 stream]
        rw [h12]
      rw [handshake_of_good stream (stream.drop 12) ackOk hs, hack]
  refine ⟨hiff, ?_, ?_, ?_⟩
  · intro hsucc
    obtain ⟨h12, -⟩ := hiff.mp hsucc
    have hs : stream = good_handshake_bytes ++ stream.drop 12 := by
      conv_lhs => rw [← List.take_append_drop 12 stream]
      rw [h12]
    rw [handshake_of_good stream (stream.drop 12) ackOk hs]
  · intro hshort
    by_contra hx
    have hsucc : (handle_handshake stream ackOk).1 = true := by
      cases hb : (handle_handshake stream ackOk).1
      · exact absurd hb hx
      · rfl
    obtain ⟨h12, -⟩ := hiff.mp hsucc
    have := congrArg List.length h12
    rw [List.length_take, hgood12] at this
    omega
  · intro i b chk r2 hi hb hchk
    have hread : read_exact 4 (expected_magic.set i b ++ r2) =
        some (expected_magic.set i b, r2) := by
      have h := read_exact_append (expected_magic.set i b) r2
      rwa [show (expected_magic.set i b).length = 4 from by
        rw [List.length_set]; rfl] at h
    unfold handle_handshake
    rw [read_exact_header]
    dsimp only
    rw [parse_build_packet_header 4 PACKET_TYPE_HANDSHAKE chk (by omega) hchk]
    dsimp only
    rw [if_neg (show ¬ PACKET_TYPE_HANDSHAKE ≠ PACKET_TYPE_HANDSHAKE by simp)]
    rw [hread]
    dsimp only
    have hsetne : expected_magic.set i b ≠ [] := by
      intro hx
      have := congrArg List.length hx
      rw [List.length_set] at this
      exact absurd this (by decide)
    rw [if_neg hsetne]
    by_cases hc : calculate_checksum (expected_magic.set i b) ≠ chk
    · rw [if_pos hc]
    · rw [if_neg hc]
      have hne : expected_magic.set i b ≠ expected_magic := by
        interval_cases i <;> (simp [expected_magic] at hb ⊢) <;> omega
      rw [if_pos hne]

/-- C4 witness: the canonical good handshake bytes succeed with a session
registered at `(0, 0)`, and a one-byte alteration of the magic fails. -/
theorem C4_handshake_iff_magic_witness :
    (handle_handshake good_handshake_bytes true).1 = true ∧
    (handle_handshake good_handshake_bytes true).2 = some (0, 0) ∧
    (handle_handshake (build_packet_header 4 PACKET_TYPE_HANDSHAKE 14045 ++
      (expected_magic.set 0 0 ++ [])) true).1 = false := by
  have h := C4_handshake_iff_magic good_handshake_bytes true (by decide)
  refine ⟨h.1.mpr ⟨by decide, rfl⟩, h.2.1 (h.1.mpr ⟨by decide, rfl⟩), ?_⟩
  exact h.2.2.2 0 0 14045 [] (by decide) (by decide) (by decide)

theorem framesOf_flatten : ∀ n data s, data.length ≤ n →
    ((framesOf data s).map (fun f => f.2.2)).flatten = data := by
  intro n
  induction n with
  | zero =>
    intro data s h
    have hd : data = [] := List.eq_nil_of_length_eq_zero (by omega)
    subst hd
    simp [framesOf]
  | succ n ih =>
    intro data s h
    cases data with
    | nil => simp [framesOf]
    | cons a d =>
      rw [framesOf]
      simp only [List.map_cons, List.flatten_cons]
      rw [ih ((a :: d).drop PACKET_MAX_SIZE) (s + 1)
        (by simp only [List.length_drop, List.length_cons, PACKET_MAX_SIZE] at h ⊢; omega)]
      exact List.take_append_drop _ _

theorem framesOf_mem_bounds : ∀ n data s f, data.length ≤ n → f ∈ framesOf data s →
    f.2.2.length ≤ PACKET_MAX_SIZE ∧ f.2.2 ≠ [] := by
  intro n
  induction n with
  | zero =>
    intro data s f h hf
    have hd : data = [] := List.eq_nil_of_length_eq_zero (by omega)
    subst hd
    exact absurd hf (by simp [framesOf])
  | succ n ih =>
    intro data s f h hf
    cases data with
    | nil => exact absurd hf (by simp [framesOf])
    | cons a d =>
      rw [framesOf] at hf
      rcases List.mem_cons.mp hf with hf | hf
      · subst hf
        exact ⟨by simp [List.length_take], take_max_ne_nil a d⟩
      · exact ih ((a :: d).drop PACKET_MAX_SIZE) (s + 1) f
          (by simp only [List.length_drop, List.length_cons, PACKET_MAX_SIZE] at h ⊢; omega) hf

theorem framesOf_seqs : ∀ n data s, data.length ≤ n →
    (framesOf data s).map (fun f => f.2.1) = List.range' s (chunkCount data) := by
  intro n
  induction n with
  | zero =>
    intro data s h
    have hd : data = [] := List.eq_nil_of_length_eq_zero (by omega)
    subst hd
    simp [framesOf, chunkCount]
  | succ n ih =>
    intro data s h
    cases data with
    | nil => simp [framesOf, chunkCount]
    | cons a d =>
      rw [framesOf, chunkCount]
      simp only [List.map_cons]
      rw [ih ((a :: d).drop PACKET_MAX_SIZE) (s + 1)
        (by simp only [List.length_drop, List.length_cons, PACKET_MAX_SIZE] at h ⊢; omega)]
      rw [Nat.add_comm 1 (chunkCount ((a :: d).drop PACKET_MAX_SIZE)), List.range'_succ]

theorem framesOf_types : ∀ n data s, data.length ≤ n → data ≠ [] →
    (framesOf data s).map (fun f => f.1) =
      List.replicate (chunkCount data - 1) PACKET_TYPE_DATA ++ [PACKET_TYPE_DATA_END] := by
  intro n
  induction n with
  | zero =>
    intro data s h hne
    exact absurd (List.eq_nil_of_length_eq_zero (by omega)) hne
  | succ n ih =>
    intro data s h hne
    obtain ⟨a, d, rfl⟩ := List.exists_cons_of_ne_nil hne
    rw [framesOf, chunkCount]
    simp only [List.map_cons]
    by_cases hlast : (a :: d).length ≤ PACKET_MAX_SIZE
    · have hrest : (a :: d).drop PACKET_MAX_SIZE = [] := by
        rw [List.drop_eq_nil_iff]
        omega
      rw [if_pos hlast, hrest]
      simp [framesOf, chunkCount]
    · have hrest : (a :: d).drop PACKET_MAX_SIZE ≠ [] := by
        refine List.length_pos.mp ?_
        simp only [List.length_drop, List.length_cons] at hlast ⊢
        omega
      have hccpos := chunkCount_pos hrest
      rw [if_neg hlast]
      rw [ih ((a :: d).drop PACKET_MAX_SIZE) (s + 1)
        (by simp only [List.length_drop, List.length_cons, PACKET_MAX_SIZE] at h ⊢; omega)
        hrest]
      rw [show 1 + chunkCount ((a :: d).drop PACKET_MAX_SIZE) - 1 =
        (chunkCount ((a :: d).drop PACKET_MAX_SIZE) - 1) + 1 from by omega]
      rw [List.replicate_succ]
      simp

theorem chunkCount_le_bound : ∀ n data, data.length ≤ n →
    PACKET_MAX_SIZE * chunkCount data ≤ data.length + (PACKET_MAX_SIZE - 1) := by
  intro n
  induction n with
  | zero =>
    intro data h
    have hd : data = [] := List.eq_nil_of_length_eq_zero (by omega)
    subst hd
    simp [chunkCount]
  | succ n ih =>
    intro data h
    cases data with
    | nil => simp [chunkCount]
    | cons a d =>
      rw [chunkCount]
      have hrec := ih ((a :: d).drop PACKET_MAX_SIZE)
        (by simp only [List.length_drop, List.length_cons, PACKET_MAX_SIZE] at h ⊢; omega)
      have hmax : PACKET_MAX_SIZE = 8192 := rfl
      simp only [List.length_drop, List.length_cons] at hrec ⊢
      rw [hmax] at hrec ⊢
      omega

/-- C5 counterexample: for the empty payload the sender writes no frames at
all, and the receiver of that (empty) wire stream does not return an
accumulation buffer at all - it fails with `none` rather than returning a
buffer byte-identical to the (empty) payload. -/
theorem C5_counterexample_empty_payload :
    (send_data_with_retries losslessEnv [] 0).2.2 = [] ∧
    (receive_data_with_verification
      (traceBytes (send_data_with_retries losslessEnv [] 0).2.2) 0).1 = none ∧
    (receive_data_with_verification
      (traceBytes (send_data_with_retries losslessEnv [] 0).2.2) 0).1 ≠
      some ([] : List Nat) := by
  have hsend : send_data_with_retries losslessEnv [] 0 = (true, 0, []) := by
    unfold send_data_with_retries
    exact sendLoop_nil _ _ _ _
  have hiter : receiveIter (10 * 1024 * 1024)
      { stream := traceBytes [], recvSeq := 0, received := [], sent := [] } =
      RecvStep.abort { stream := traceBytes [], recvSeq := 0, received := [], sent := [] } :=
    rfl
  have hloop := receiveLoop_abort hiter
  rw [hsend]
  unfold receive_data_with_verification
  rw [hloop]
  exact ⟨rfl, rfl, by simp⟩

/-- C5 amended: for every NONEMPTY payload no larger than the receiver's
maximum transfer size (10 MiB), the sender on a lossless link splits it
into ordered chunks of at most `PACKET_MAX_SIZE` bytes that concatenate
back to the payload, carrying consecutive sequence numbers from 0, with
only the final chunk marked DataEnd, and the receiver of the transmitted
frame stream returns an accumulation buffer byte-identical to the
payload.  (The original claim also covered the empty payload, for which no
frame is sent and the receiver returns failure instead of an empty
buffer.) -/
theorem C5_amended_nonempty_lossless_roundtrip (data : List Nat) (hne : data ≠ [])
    (hsize : data.length ≤ 10 * 1024 * 1024) :
    send_data_with_retries losslessEnv data 0 =
      (true, chunkCount data, (framesOf data 0).map frameEvent) ∧
    ((framesOf data 0).map (fun f => f.2.2)).flatten = data ∧
    (∀ f ∈ framesOf data 0, f.2.2.length ≤ PACKET_MAX_SIZE ∧ f.2.2 ≠ []) ∧
    (framesOf data 0).map (fun f => f.2.1) = List.range' 0 (chunkCount data) ∧
    (framesOf data 0).map (fun f => f.1) =
      List.replicate (chunkCount data - 1) PACKET_TYPE_DATA ++ [PACKET_TYPE_DATA_END] ∧
    (receive_data_with_verification
      (traceBytes ((framesOf data 0).map frameEvent)) 0).1 = some data := by
  have hmax : PACKET_MAX_SIZE = 8192 := rfl
  have hccb := chunkCount_le_bound data.length data (Nat.le_refl _)
  have hcc : 0 + chunkCount data ≤ 65536 := by
    rw [hmax] at hccb
    omega
  refine ⟨?_, framesOf_flatten data.length data 0 (Nat.le_refl _),
    fun f hf => framesOf_mem_bounds data.length data 0 f (Nat.le_refl _) hf,
    framesOf_seqs data.length data 0 (Nat.le_refl _),
    framesOf_types data.length data 0 (Nat.le_refl _) hne, ?_⟩
  · unfold send_data_with_retries
    rw [sendLoop_lossless data.length data 0 0 (Nat.le_refl _)]
    simp
  · unfold receive_data_with_verification
    have := receiveLoop_frames (10 * 1024 * 1024) data.length data [] 0 []
      (Nat.le_refl _) hne (by simpa using hsize) hcc
    simpa using this

/-- C5 witness: the 3-byte payload `[1, 2, 3]` round-trips. -/
theorem C5_amended_nonempty_lossless_roundtrip_witness :
    (receive_data_with_verification
      (traceBytes ((framesOf [1, 2, 3] 0).map frameEvent)) 0).1 = some [1, 2, 3] :=
  (C5_amended_nonempty_lossless_roundtrip [1, 2, 3] (by decide)
    (by decide)).2.2.2.2.2

/-- C7 counterexample: a 44-byte buffer with both the RIFF and WAVE markers
present but no fmt/data structure fails `is_well_formed` and has structural
markers present, yet the repair entry point returns it unchanged - still
not well-formed - because its fast path tests only the two markers. -/
theorem C7_counterexample_both_markers_unrepaired :
    (RIFF_BYTES ++ [0, 0, 0, 0] ++ WAVE_BYTES ++ List.replicate 32 0).length = 44 ∧
    verify_wav_format (RIFF_BYTES ++ [0, 0, 0, 0] ++ WAVE_BYTES ++
      List.replicate 32 0) = false ∧
    bslice (RIFF_BYTES ++ [0, 0, 0, 0] ++ WAVE_BYTES ++ List.replicate 32 0) 0 4 =
      RIFF_BYTES ∧
    ensure_valid_wav_format (RIFF_BYTES ++ [0, 0, 0, 0] ++ WAVE_BYTES ++
      List.replicate 32 0) =
      RIFF_BYTES ++ [0, 0, 0, 0] ++ WAVE_BYTES ++ List.replicate 32 0 ∧
    verify_wav_format (ensure_valid_wav_format (RIFF_BYTES ++ [0, 0, 0, 0] ++
      WAVE_BYTES ++ List.replicate 32 0)) = false := by
  decide

/-- C7 amended: for every buffer of length at least 44 (and below `2^32`,
where the size fields are well defined) that fails `is_well_formed` and has
EXACTLY ONE of the two structural markers present (RIFF at offset 0 or WAVE
at offset 8, but not both - with both present the entry point returns the
buffer unchanged), the repair function returns a buffer of the same length
that passes `is_well_formed`, in which every size field is recomputed from
the actual buffer length (data-chunk size `length - 44`, overall RIFF size
`length - 8`, fmt-chunk size 16, PCM format tag 1, 1 channel, 16000 Hz,
byte rate 32000, block alignment 2, 16 bits per sample), and whose bytes
from offset 44 onward equal the input's raw sample bytes unchanged. -/
theorem C7_amended_single_marker_repair (w : List Nat) (hlen : 44 ≤ w.length)
    (hlen32 : w.length < 2 ^ 32)
    (hnotwf : verify_wav_format w = false)
    (hmark : bslice w 0 4 = RIFF_BYTES ∨ bslice w 8 12 = WAVE_BYTES)
    (hnotboth : ¬(bslice w 0 4 = RIFF_BYTES ∧ bslice w 8 12 = WAVE_BYTES)) :
    (ensure_valid_wav_format w).length = w.length ∧
    verify_wav_format (ensure_valid_wav_format w) = true ∧
    unpack_u32_le (bslice (ensure_valid_wav_format w) 40 44) = w.length - 44 ∧
    unpack_u32_le (bslice (ensure_valid_wav_format w) 4 8) = w.length - 8 ∧
    unpack_u32_le (bslice (ensure_valid_wav_format w) 16 20) = 16 ∧
    unpack_u16_le (bslice (ensure_valid_wav_format w) 20 22) = 1 ∧
    unpack_u16_le (bslice (ensure_valid_wav_format w) 22 24) = 1 ∧
    unpack_u32_le (bslice (ensure_valid_wav_format w) 24 28) = 16000 ∧
    unpack_u32_le (bslice (ensure_valid_wav_format w) 28 32) = 32000 ∧
    unpack_u16_le (bslice (ensure_valid_wav_format w) 32 34) = 2 ∧
    unpack_u16_le (bslice (ensure_valid_wav_format w) 34 36) = 16 ∧
    (ensure_valid_wav_format w).drop 44 = w.drop 44 := by
  have hens : ensure_valid_wav_format w = repair_wav_file w := by
    unfold ensure_valid_wav_format
    rw [if_neg (fun hx => hnotboth ⟨hx.2.1, hx.2.2⟩)]
    rw [if_pos (show 12 ≤ w.length ∧ (bslice w 0 4 = RIFF_BYTES ∨
      bslice w 8 12 = WAVE_BYTES) from ⟨by omega, hmark⟩)]
    rw [if_neg (by simp)]
  have hrep : repair_wav_file w =
      RIFF_BYTES ++ pack_u32_le (w.length - 8) ++ WAVE_BYTES ++ FMT_BYTES ++
      pack_u32_le 16 ++ pack_u16_le 1 ++ pack_u16_le 1 ++ pack_u32_le 16000 ++
      pack_u32_le 32000 ++ pack_u16_le 2 ++ pack_u16_le 16 ++ DATA_BYTES ++
      pack_u32_le (w.length - 44) ++ w.drop 44 := by
    unfold repair_wav_file
    rw [if_neg (by omega)]
  have hf := std_header_fields (w.length - 8) 16 1 1 16000 32000 2 16 (w.length - 44)
    (w.drop 44) (repair_wav_file w) hrep
  rw [hens]
  obtain ⟨f1, f2, f3, f4, f5, f6, f7, f8, f9, f10, f11, f12, f13, f14, f15⟩ := hf
  have hout_len : (repair_wav_file w).length = w.length := by
    rw [f15, List.length_drop]
    omega
  refine ⟨hout_len, ?_, ?_, ?_, ?_, ?_, ?_, ?_, ?_, ?_, ?_, f14⟩
  · unfold verify_wav_format
    rw [if_neg (by omega), if_neg (by rw [f1]; simp), if_neg (by rw [f3]; simp),
      if_neg (by rw [f4]; simp), if_neg (by rw [f12]; simp)]
  · rw [f13, unpack_pack_u32_le _ (by omega)]
  · rw [f2, unpack_pack_u32_le _ (by omega)]
  · rw [f5, unpack_pack_u32_le _ (by omega)]
  · rw [f6, unpack_pack_u16_le _ (by omega)]
  · rw [f7, unpack_pack_u16_le _ (by omega)]
  · rw [f8, unpack_pack_u32_le _ (by omega)]
  · rw [f9, unpack_pack_u32_le _ (by omega)]
  · rw [f10, unpack_pack_u16_le _ (by omega)]
  · rw [f11, unpack_pack_u16_le _ (by omega)]

/-- C7 witness: a 44-byte buffer that carries only the RIFF marker is
repaired into a well-formed container with data-chunk size 0. -/
theorem C7_amended_single_marker_repair_witness :
    verify_wav_format (ensure_valid_wav_format (RIFF_BYTES ++
      List.replicate 40 0)) = true ∧
    unpack_u32_le (bslice (ensure_valid_wav_format (RIFF_BYTES ++
      List.replicate 40 0)) 40 44) = 0 := by
  have h := C7_amended_single_marker_repair (RIFF_BYTES ++ List.replicate 40 0)
    (by decide) (by decide) (by decide) (Or.inl (by decide)) (by decide)
  exact ⟨h.2.1, h.2.2.1⟩

/-- C8: for every input with no structural markers (no RIFF at offset 0 and
no WAVE at offset 8; length below `2^32` so the size field is well
defined), the repair function wraps it as raw PCM: the output passes
`is_well_formed`, its data-chunk length field equals the input length
exactly, and the header declares the fixed defaults 16000 Hz, 1 channel
(mono) and 16 bits per sample; the sample bytes follow unchanged. -/
theorem C8_raw_pcm_wrapped_with_defaults (w : List Nat) (hlen32 : w.length < 2 ^ 32)
    (hnoriff : bslice w 0 4 ≠ RIFF_BYTES) (hnowave : bslice w 8 12 ≠ WAVE_BYTES) :
    ensure_valid_wav_format w = create_wav_from_pcm w 16000 1 2 ∧
    verify_wav_format (ensure_valid_wav_format w) = true ∧
    unpack_u32_le (bslice (ensure_valid_wav_format w) 40 44) = w.length ∧
    unpack_u32_le (bslice (ensure_valid_wav_format w) 24 28) = 16000 ∧
    unpack_u16_le (bslice (ensure_valid_wav_format w) 22 24) = 1 ∧
    unpack_u16_le (bslice (ensure_valid_wav_format w) 34 36) = 16 ∧
    (ensure_valid_wav_format w).drop 44 = w := by
  have hens : ensure_valid_wav_format w = create_wav_from_pcm w 16000 1 2 := by
    unfold ensure_valid_wav_format
    rw [if_neg (fun hx => hnoriff hx.2.1)]
    rw [if_neg (show ¬(12 ≤ w.length ∧ (bslice w 0 4 = RIFF_BYTES ∨
      bslice w 8 12 = WAVE_BYTES)) from fun hx => hx.2.elim hnoriff hnowave)]
    simp
  have hcr : create_wav_from_pcm w 16000 1 2 =
      RIFF_BYTES ++ pack_u32_le (36 + w.length) ++ WAVE_BYTES ++ FMT_BYTES ++
      pack_u32_le 16 ++ pack_u16_le 1 ++ pack_u16_le 1 ++ pack_u32_le 16000 ++
      pack_u32_le (1 * 16000 * 2) ++ pack_u16_le (1 * 2) ++ pack_u16_le (2 * 8) ++
      DATA_BYTES ++ pack_u32_le w.length ++ w := by
    unfold create_wav_from_pcm
    rfl
  have hf := std_header_fields (36 + w.length) 16 1 1 16000 (1 * 16000 * 2) (1 * 2)
    (2 * 8) w.length w (create_wav_from_pcm w 16000 1 2) hcr
  rw [hens]
  obtain ⟨f1, f2, f3, f4, f5, f6, f7, f8, f9, f10, f11, f12, f13, f14, f15⟩ := hf
  refine ⟨rfl, ?_, ?_, ?_, ?_, ?_, f14⟩
  · unfold verify_wav_format
    rw [if_neg (by omega), if_neg (by rw [f1]; simp), if_neg (by rw [f3]; simp),
      if_neg (by rw [f4]; simp), if_neg (by rw [f12]; simp)]
  · rw [f13, unpack_pack_u32_le _ (by omega)]
  · rw [f8, unpack_pack_u32_le _ (by omega)]
  · rw [f7, unpack_pack_u16_le _ (by omega)]
  · rw [f11, unpack_pack_u16_le _ (by omega)]

/-- C8 witness: wrapping the raw 3-byte sequence `[1, 2, 3]`. -/
theorem C8_raw_pcm_wrapped_with_defaults_witness :
    verify_wav_format (ensure_valid_wav_format [1, 2, 3]) = true ∧
    unpack_u32_le (bslice (ensure_valid_wav_format [1, 2, 3]) 40 44) = 3 := by
  have h := C8_raw_pcm_wrapped_with_defaults [1, 2, 3] (by decide) (by decide) (by decide)
  exact ⟨h.2.1, h.2.2.1⟩

end EchoServer
